import Mathlib

/-!
Verification development for the face-identification pipeline of
`deepface/recognizers/recognizer_vgg.py` (class `FaceRecognizerVGG`).

The embedding translates the pipeline's pure structure:
* `extract_features` — batch assembly (`grouper` with zero padding), per-batch
  inference, concatenation and truncation to the original count;
* `detect` — identity matching: cosine-similarity ranking against a loaded
  database, or top-K class-probability ranking when no database is loaded;
* `tag_faces` — threshold-gated tagging of Face records.

External collaborators (the CNN forward pass, `cv2.resize`, `get_roi`) are
abstracted as function parameters; real scalars model the floating-point
values.  Fallible code paths (Python exceptions: unbound local, index error)
are modelled with `Option`, `none` meaning the call raises.
-/

namespace DeepFaceVGG

/-- Python truthiness of an optional-list argument: `None` and `[]` are falsy. -/
def truthy {α : Type} : Option (List α) → Bool
  | none => false
  | some l => !l.isEmpty

/-- Fuel-indexed worker for `grouper`; the fuel is an upper bound on the number
of chunks and is set to the input length by the wrapper. -/
def grouperAux {α : Type} (n : Nat) (fill : α) : Nat → List α → List (List α)
  | _, [] => []
  | 0, _ :: _ => []
  | fuel + 1, x :: xs =>
      (List.take n (x :: xs) ++ List.replicate (n - (x :: xs).length) fill)
        :: grouperAux n fill fuel (List.drop n (x :: xs))

/-- Modelled from the spec: `grouper` is imported from `deepface.utils.common`,
whose source is not among the files at hand.  Per the spec it groups the input
into consecutive chunks of exactly `n` elements, the last chunk, if short,
being padded with the fill value; with `n = 0` it yields no chunks (the
`itertools` recipe degenerates to an empty zip). -/
def grouper {α : Type} (n : Nat) (fill : α) (xs : List α) : List (List α) :=
  if n = 0 then [] else grouperAux n fill xs.length xs

/-- `get_new_rois`: each roi is passed through a per-element normalisation
(resize to the model input size when the shape differs); the image-level
branch is abstracted as the function `resize`. -/
def get_new_rois {Region : Type} (resize : Region → Region) (rois : List Region) :
    List Region :=
  rois.map resize

/-- `face_to_roi`: crops one roi per face via the external `get_roi`. -/
def face_to_roi {Fc Region : Type} (get_roi : Fc → Region) (faces : List Fc) :
    List Region :=
  faces.map get_roi

/-- `extract_features`: resolves the effective roi list (deriving it from
`faces` when `rois` is falsy), then batches the rois into chunks of
`batch_size` padded with `fill`, runs per-image inference on every chunk,
stacks the per-chunk outputs and truncates to the original roi count.
Returns `none` when the effective roi list is falsy: the Python code then
reads the never-assigned local `new_rois` and raises. -/
def extract_features {Fc Region Prob Feat : Type}
    (get_roi : Fc → Region) (resize : Region → Region)
    (infer : Region → Prob × Feat) (batch_size : Nat) (fill : Region)
    (rois : Option (List Region)) (faces : Option (List Fc)) :
    Option (List Prob × List Feat) :=
  let rois1 := if !truthy rois && truthy faces then
      some (face_to_roi get_roi (faces.getD [])) else rois
  match rois1 with
  | none => none
  | some rs =>
    if rs.isEmpty then none
    else
      let new_rois := get_new_rois resize rs
      let chunks := grouper batch_size fill new_rois
      let probs := (chunks.map (fun c => c.map (fun r => (infer r).1))).flatten.take rs.length
      let feats := (chunks.map (fun c => c.map (fun r => (infer r).2))).flatten.take rs.length
      some (probs, feats)

/-- `scores.sort(key=lambda x: x[1], reverse=True)`: Python's stable sort,
descending by the score component.  A stable descending sort is extensionally
unique, here realised by insertion sort with the relation
`a ≼ b ↔ b.2 ≤ a.2`: an element is inserted before the first earlier-sorted
element whose score is not larger, which preserves the original order of
equal scores. -/
def sortScores {β α : Type} [LinearOrder α] (l : List (β × α)) : List (β × α) :=
  l.insertionSort (fun a b => b.2 ≤ a.2)

/-- `np.argsort`: the indices of the array, ordered so that the corresponding
values are ascending. -/
def argsort {α : Type} [LinearOrder α] (l : List α) : List Nat :=
  (l.enum.insertionSort (fun a b => a.2 ≤ b.2)).map Prod.fst

/-- Python slice `l[-k:]`: the last `k` elements, the whole list when
`k = 0` (since `-0` is `0`) or when `k` exceeds the length. -/
def negSlice {α : Type} (k : Nat) (l : List α) : List α :=
  if k = 0 then l else l.drop (l.length - k)

/-- One candidate list of the no-database path:
`[(class_names[idx], prop[idx]) for idx in prop.argsort()[-topk:][::-1]]`. -/
def fallbackList {α : Type} [LinearOrder α] [Inhabited α]
    (class_names : List String) (topk : Nat) (prop : List α) :
    List (String × α) :=
  ((negSlice topk (argsort prop)).reverse).map
    (fun idx => (class_names.getD idx default, prop.getD idx default))

/-- The no-database branch of `detect`: per-query top-K class ranking. -/
def detectNoDb {α : Type} [LinearOrder α] [Inhabited α]
    (class_names : List String) (topk : Nat) (probs : List (List α)) :
    List (List (String × α)) :=
  probs.map (fallbackList class_names topk)

/-- `np.linalg.norm(v, 2)` on a vector: the Euclidean norm. -/
noncomputable def np_norm2 (v : List ℝ) : ℝ :=
  Real.sqrt ((v.map (fun x => x * x)).sum)

/-- NumPy elementwise division of a vector by a scalar. -/
noncomputable def np_div (v : List ℝ) (s : ℝ) : List ℝ :=
  v.map (fun x => x / s)

/-- `np.dot` of two vectors. -/
def np_dot (a b : List ℝ) : ℝ :=
  (List.zipWith (fun x y => x * y) a b).sum

/-- The similarity computed per database entry:
`np.dot(feat / np.linalg.norm(feat, 2), db_feature / np.linalg.norm(db_feature, 2))`. -/
noncomputable def similarity (feat db_feature : List ℝ) : ℝ :=
  np_dot (np_div feat (np_norm2 feat)) (np_div db_feature (np_norm2 db_feature))

/-- The unsorted `(db_name, similarity)` list built by the inner loop of the
database branch, in database iteration order. -/
noncomputable def scoresFor (db : List (String × List ℝ)) (feat : List ℝ) :
    List (String × ℝ) :=
  db.map (fun p => (p.1, similarity feat p.2))

/-- The database branch of `detect`: for each query feature, the stably
sorted (descending) similarity scores against every database entry. -/
noncomputable def detectDb (db : List (String × List ℝ)) (feats : List (List ℝ)) :
    List (List (String × ℝ)) :=
  feats.map (fun feat => sortScores (scoresFor db feat))

/-- The `names` value computed by `detect` (lines 145–157): the fallback
class ranking when `self.db is None`, the database similarity ranking
otherwise. -/
noncomputable def detectNames (db : Option (List (String × List ℝ)))
    (class_names : List String) (topk : Nat)
    (probs : List (List ℝ)) (feats : List (List ℝ)) :
    List (List (String × ℝ)) :=
  match db with
  | none => detectNoDb class_names topk probs
  | some d => detectDb d feats

/-- The dictionary returned by `detect`. -/
structure DetectResult where
  output : List (List ℝ)
  feature : List (List ℝ)
  name : List (List (String × ℝ))

/-- `detect`: extract features, then attach the candidate name lists. -/
noncomputable def detect {Fc Region : Type}
    (get_roi : Fc → Region) (resize : Region → Region)
    (infer : Region → List ℝ × List ℝ) (batch_size : Nat) (fill : Region)
    (db : Option (List (String × List ℝ))) (class_names : List String)
    (topk : Nat) (rois : Option (List Region)) (faces : Option (List Fc)) :
    Option DetectResult :=
  (extract_features get_roi resize infer batch_size fill rois faces).map
    (fun pf => ⟨pf.1, pf.2, detectNames db class_names topk pf.1 pf.2⟩)

/-- A detected face record, restricted to the three attributes `tag_faces`
touches; all are unset until the tagger assigns them. -/
structure Face (Feat Score : Type) where
  face_feature : Option Feat := none
  face_name : Option String := none
  face_score : Option Score := none
deriving DecidableEq

/-- The body of the `tag_faces` loop for one face, given the top candidate:
always attach the feature; name and score only when the top score reaches
the threshold. -/
def tagStep {Feat Score : Type} [LinearOrder Score]
    (score_th : Score) (feat : Feat) (top : String × Score)
    (face : Face Feat Score) : Face Feat Score :=
  let tagged : Face Feat Score := { face with face_feature := some feat }
  if top.2 < score_th then tagged
  else { tagged with face_name := some top.1, face_score := some top.2 }

/-- Index-tracking worker for `tag_faces`.  `none` models the Python
`IndexError` raised when `result['feature']` or `result['name']` is too
short, or a candidate list is empty (`result['name'][face_idx][0]`). -/
def tagFacesAux {Feat Score : Type} [LinearOrder Score]
    (score_th : Score) (features : List Feat)
    (names : List (List (String × Score))) :
    Nat → List (Face Feat Score) → Option (List (Face Feat Score))
  | _, [] => some []
  | i, f :: fs => do
    let feat ← features.get? i
    let cands ← names.get? i
    let top ← cands.head?
    let rest ← tagFacesAux score_th features names (i + 1) fs
    some (tagStep score_th feat top f :: rest)

/-- `tag_faces`: for each face in order, attach the feature vector and, when
the top candidate's score reaches the threshold, the name and score. -/
def tag_faces {Feat Score : Type} [LinearOrder Score]
    (score_th : Score) (features : List Feat)
    (names : List (List (String × Score)))
    (faces : List (Face Feat Score)) : Option (List (Face Feat Score)) :=
  tagFacesAux score_th features names 0 faces

/-! ## Batching lemmas -/

theorem grouperAux_flatten {α : Type} (n : Nat) (fill : α) (hn : 0 < n) :
    ∀ (fuel : Nat) (xs : List α), xs.length ≤ fuel →
      ∃ k, (grouperAux n fill fuel xs).flatten = xs ++ List.replicate k fill := by
  intro fuel
  induction fuel with
  | zero =>
    intro xs hxs
    match xs with
    | [] => exact ⟨0, rfl⟩
    | x :: xs => simp at hxs
  | succ fuel ih =>
    intro xs hxs
    match xs with
    | [] => exact ⟨0, rfl⟩
    | x :: xs =>
      have hxs1 : xs.length + 1 ≤ fuel + 1 := by
        rw [← List.length_cons x]; exact hxs
      have hdrop : (List.drop n (x :: xs)).length ≤ fuel := by
        rw [List.length_drop, List.length_cons]
        omega
      obtain ⟨k, hk⟩ := ih (List.drop n (x :: xs)) hdrop
      by_cases hle : (x :: xs).length ≤ n
      · have hdrop0 : List.drop n (x :: xs) = [] := by
          apply List.drop_eq_nil_of_le hle
        refine ⟨n - (x :: xs).length, ?_⟩
        simp only [grouperAux, hdrop0, List.flatten_cons, List.flatten_nil,
          List.append_nil, List.take_of_length_le hle]
      · have hsub : n - (x :: xs).length = 0 := by omega
        refine ⟨k, ?_⟩
        simp only [grouperAux, List.flatten_cons, hk, hsub, List.replicate_zero,
          List.append_nil, List.append_assoc]
        rw [← List.append_assoc, List.take_append_drop]

theorem grouper_flatten {α : Type} (n : Nat) (fill : α) (xs : List α) (hn : 0 < n) :
    ∃ k, (grouper n fill xs).flatten = xs ++ List.replicate k fill := by
  unfold grouper
  rw [if_neg (Nat.pos_iff_ne_zero.mp hn)]
  exact grouperAux_flatten n fill hn xs.length xs le_rfl

theorem take_length_append {α : Type} (l r : List α) (m : Nat) (hm : m = l.length) :
    (l ++ r).take m = l := by
  subst hm; exact List.take_left l r

/-- The two stacked-and-truncated result sequences of `extract_features`,
computed from any chunk list whose flattening is the input plus padding,
are the per-element images of the input. -/
theorem flatten_map_take {α β : Type} (f : α → β) (chunks : List (List α))
    (xs : List α) (fill : α) (k : Nat)
    (hflat : chunks.flatten = xs ++ List.replicate k fill) :
    ((chunks.map (fun c => c.map f)).flatten).take xs.length = xs.map f := by
  rw [← List.map_flatten, hflat, List.map_append]
  exact take_length_append _ _ _ (List.length_map xs f).symm

theorem extract_features_maps {Fc Region Prob Feat : Type}
    (get_roi : Fc → Region) (resize : Region → Region)
    (infer : Region → Prob × Feat) (B : Nat) (fill : Region)
    (rois : List Region) (faces : Option (List Fc))
    (hB : 0 < B) (hne : rois ≠ []) :
    extract_features get_roi resize infer B fill (some rois) faces =
      some (rois.map (fun x => (infer (resize x)).1),
            rois.map (fun x => (infer (resize x)).2)) := by
  have hempty : rois.isEmpty = false := by
    cases rois with
    | nil => exact absurd rfl hne
    | cons a l => rfl
  obtain ⟨k, hflat⟩ := grouper_flatten B fill (rois.map resize) hB
  have h1 := flatten_map_take (fun r => (infer r).1)
    (grouper B fill (rois.map resize)) (rois.map resize) fill k hflat
  have h2 := flatten_map_take (fun r => (infer r).2)
    (grouper B fill (rois.map resize)) (rois.map resize) fill k hflat
  rw [List.length_map] at h1 h2
  simp [extract_features, truthy, hempty, get_new_rois, h1, h2, List.map_map,
    Function.comp]

theorem extract_features_falsy {Fc Region Prob Feat : Type}
    (get_roi : Fc → Region) (resize : Region → Region)
    (infer : Region → Prob × Feat) (B : Nat) (fill : Region)
    (rois : Option (List Region)) (faces : Option (List Fc))
    (h1 : truthy rois = false) (h2 : truthy faces = false) :
    extract_features get_roi resize infer B fill rois faces = none := by
  simp only [extract_features, h2, Bool.and_false, if_false]
  cases rois with
  | none => rfl
  | some l =>
    have hl : l.isEmpty = true := by
      cases l with
      | nil => rfl
      | cons a t => simp [truthy] at h1
    simp [hl]

/-! ## Sorting lemmas -/

theorem sortScores_sorted {β α : Type} [LinearOrder α] (l : List (β × α)) :
    (sortScores l).Pairwise (fun a b => b.2 ≤ a.2) := by
  haveI : IsTotal (β × α) (fun a b => b.2 ≤ a.2) := ⟨fun a b => le_total b.2 a.2⟩
  haveI : IsTrans (β × α) (fun a b => b.2 ≤ a.2) :=
    ⟨fun a b c hab hbc => le_trans hbc hab⟩
  exact List.sorted_insertionSort _ l

theorem sortScores_perm {β α : Type} [LinearOrder α] (l : List (β × α)) :
    List.Perm (sortScores l) l :=
  List.perm_insertionSort _ l

theorem filter_orderedInsert {β α : Type} [LinearOrder α] (s : α)
    (a : β × α) (l : List (β × α)) :
    (List.orderedInsert (fun x y => y.2 ≤ x.2) a l).filter (fun p => p.2 = s) =
      ((a :: l).filter (fun p => p.2 = s)) := by
  induction l with
  | nil => rfl
  | cons b bs ih =>
    by_cases hab : b.2 ≤ a.2
    · rw [List.orderedInsert, if_pos hab]
    · rw [List.orderedInsert, if_neg hab]
      have hlt : a.2 < b.2 := not_le.mp hab
      by_cases hbq : b.2 = s
      · have haq : ¬ a.2 = s := by rw [← hbq]; exact ne_of_lt hlt
        simp [List.filter_cons, hbq, haq, ih]
      · simp [List.filter_cons, hbq, ih]

theorem sortScores_stable {β α : Type} [LinearOrder α] (l : List (β × α)) (s : α) :
    (sortScores l).filter (fun p => p.2 = s) = l.filter (fun p => p.2 = s) := by
  induction l with
  | nil => rfl
  | cons x xs ih =>
    simp only [sortScores] at ih ⊢
    rw [List.insertionSort, filter_orderedInsert]
    simp [List.filter_cons, ih]

/-! ## Argsort and slice lemmas -/

theorem argsort_perm {α : Type} [LinearOrder α] (l : List α) :
    List.Perm (argsort l) (List.range l.length) := by
  unfold argsort
  have h := List.perm_insertionSort (fun a b : Nat × α => a.2 ≤ b.2) l.enum
  exact (h.map Prod.fst).trans (by rw [List.enum_map_fst])

theorem argsort_length {α : Type} [LinearOrder α] (l : List α) :
    (argsort l).length = l.length :=
  (argsort_perm l).length_eq.trans (List.length_range _)

theorem argsort_sorted {α : Type} [LinearOrder α] [Inhabited α] (l : List α) :
    (argsort l).Pairwise (fun i j => l.getD i default ≤ l.getD j default) := by
  unfold argsort
  rw [List.pairwise_map]
  haveI : IsTotal (Nat × α) (fun a b => a.2 ≤ b.2) := ⟨fun a b => le_total a.2 b.2⟩
  haveI : IsTrans (Nat × α) (fun a b => a.2 ≤ b.2) :=
    ⟨fun a b c hab hbc => le_trans hab hbc⟩
  have hs := List.sorted_insertionSort (fun a b : Nat × α => a.2 ≤ b.2) l.enum
  refine hs.imp_of_mem ?_
  intro p q hp hq hpq
  have hp1 : p ∈ l.enum := (List.perm_insertionSort _ _).subset hp
  have hq1 : q ∈ l.enum := (List.perm_insertionSort _ _).subset hq
  obtain ⟨hplt, hpx⟩ := List.mem_enum hp1
  obtain ⟨hqlt, hqx⟩ := List.mem_enum hq1
  have e1 : l.getD p.1 default = p.2 := by
    rw [List.getD_eq_getElem?_getD, List.getElem?_eq_getElem hplt,
      Option.getD_some, ← hpx]
  have e2 : l.getD q.1 default = q.2 := by
    rw [List.getD_eq_getElem?_getD, List.getElem?_eq_getElem hqlt,
      Option.getD_some, ← hqx]
  rw [e1, e2]
  exact hpq

theorem negSlice_sublist {α : Type} (k : Nat) (l : List α) :
    (negSlice k l).Sublist l := by
  unfold negSlice
  split
  · exact List.Sublist.refl l
  · exact List.drop_sublist _ _

theorem negSlice_length_of_pos {α : Type} {k : Nat} (l : List α) (hk : 0 < k) :
    (negSlice k l).length = min k l.length := by
  unfold negSlice
  rw [if_neg (Nat.pos_iff_ne_zero.mp hk), List.length_drop]
  omega

theorem negSlice_of_length_le {α : Type} {k : Nat} {l : List α}
    (h : l.length ≤ k) : negSlice k l = l := by
  unfold negSlice
  split
  · rfl
  · rw [Nat.sub_eq_zero_of_le h, List.drop_zero]

/-! ## Fallback-path lemmas -/

theorem map_getD_range {γ : Type} [Inhabited γ] (l : List γ) :
    (List.range l.length).map (fun i => l.getD i default) = l := by
  apply List.ext_get
  · simp
  · intro n h1 h2
    simp only [List.get_eq_getElem, List.getElem_map, List.getElem_range,
      List.getD_eq_getElem?_getD, List.getElem?_eq_getElem h2, Option.getD_some]

theorem fallbackList_sorted {α : Type} [LinearOrder α] [Inhabited α]
    (cn : List String) (topk : Nat) (prop : List α) :
    (fallbackList cn topk prop).Pairwise (fun a b => b.2 ≤ a.2) := by
  unfold fallbackList
  rw [List.pairwise_map, List.pairwise_reverse]
  exact List.Pairwise.sublist (negSlice_sublist _ _) (argsort_sorted prop)

theorem fallbackList_length {α : Type} [LinearOrder α] [Inhabited α]
    (cn : List String) {topk : Nat} (prop : List α) (htop : 0 < topk) :
    (fallbackList cn topk prop).length = min topk prop.length := by
  unfold fallbackList
  rw [List.length_map, List.length_reverse, negSlice_length_of_pos _ htop,
    argsort_length]

theorem fallbackList_names_perm {α : Type} [LinearOrder α] [Inhabited α]
    {cn : List String} {topk : Nat} {prop : List α}
    (hcn : cn.length = prop.length) (h : prop.length ≤ topk) :
    List.Perm ((fallbackList cn topk prop).map Prod.fst) cn := by
  unfold fallbackList
  rw [List.map_map]
  have hslice : negSlice topk (argsort prop) = argsort prop :=
    negSlice_of_length_le (by rw [argsort_length]; exact h)
  rw [hslice]
  have hperm : List.Perm (argsort prop).reverse (List.range cn.length) :=
    (List.reverse_perm _).trans ((argsort_perm prop).trans (by rw [hcn]))
  have hfun : (Prod.fst ∘ fun idx => (cn.getD idx default, prop.getD idx default)) =
      fun idx : Nat => cn.getD idx default := rfl
  rw [hfun]
  exact (hperm.map _).trans (by rw [map_getD_range])

/-! ## Tagger lemmas -/

theorem tagStep_feature {Feat Score : Type} [LinearOrder Score]
    (th : Score) (feat : Feat) (top : String × Score) (face : Face Feat Score) :
    (tagStep th feat top face).face_feature = some feat := by
  unfold tagStep
  split <;> rfl

theorem tagStep_below {Feat Score : Type} [LinearOrder Score]
    {th : Score} {top : String × Score} (feat : Feat) (face : Face Feat Score)
    (h : top.2 < th) :
    tagStep th feat top face = { face with face_feature := some feat } := by
  unfold tagStep
  rw [if_pos h]

theorem tagStep_above {Feat Score : Type} [LinearOrder Score]
    {th : Score} {top : String × Score} (feat : Feat) (face : Face Feat Score)
    (h : ¬ top.2 < th) :
    tagStep th feat top face =
      { face with face_feature := some feat, face_name := some top.1,
                  face_score := some top.2 } := by
  unfold tagStep
  rw [if_neg h]

theorem tagStep_idem {Feat Score : Type} [LinearOrder Score]
    (th : Score) (feat : Feat) (top : String × Score) (face : Face Feat Score) :
    tagStep th feat top (tagStep th feat top face) = tagStep th feat top face := by
  unfold tagStep
  by_cases h : top.2 < th <;> simp [h]

theorem tagFacesAux_spec {Feat Score : Type} [LinearOrder Score]
    (th : Score) (fts : List Feat) (nms : List (List (String × Score))) :
    ∀ (faces : List (Face Feat Score)) (i : Nat) (out : List (Face Feat Score)),
      tagFacesAux th fts nms i faces = some out →
      out.length = faces.length ∧
      ∀ (k : Nat) (f : Face Feat Score), faces[k]? = some f →
        ∃ feat cands top, fts[i + k]? = some feat ∧
          nms[i + k]? = some cands ∧ cands.head? = some top ∧
          out[k]? = some (tagStep th feat top f) := by
  intro faces
  induction faces with
  | nil =>
    intro i out h
    simp only [tagFacesAux, Option.some.injEq] at h
    subst h
    refine ⟨rfl, ?_⟩
    intro k f hk
    simp at hk
  | cons f fs ih =>
    intro i out h
    simp only [tagFacesAux, List.get?_eq_getElem?, Option.bind_eq_bind] at h
    cases hfeat : fts[i]? with
    | none => simp [hfeat] at h
    | some feat =>
      cases hcands : nms[i]? with
      | none => simp [hfeat, hcands] at h
      | some cands =>
        cases htop : cands.head? with
        | none => simp [hfeat, hcands, htop] at h
        | some top =>
          cases hrest : tagFacesAux th fts nms (i + 1) fs with
          | none => simp [hfeat, hcands, htop, hrest] at h
          | some rest =>
            rw [hfeat] at h
            simp only [Option.some_bind] at h
            rw [hcands] at h
            simp only [Option.some_bind] at h
            rw [htop] at h
            simp only [Option.some_bind] at h
            rw [hrest] at h
            simp only [Option.some_bind, Option.some.injEq] at h
            subst h
            obtain ⟨hlen, hspec⟩ := ih (i + 1) rest hrest
            constructor
            · simp [hlen]
            · intro k g hk
              cases k with
              | zero =>
                simp only [List.getElem?_cons_zero, Option.some.injEq] at hk
                subst hk
                exact ⟨feat, cands, top, by simpa using hfeat,
                  by simpa using hcands, htop, by simp⟩
              | succ k =>
                simp only [List.getElem?_cons_succ] at hk
                obtain ⟨feat1, cands1, top1, h1, h2, h3, h4⟩ := hspec k g hk
                have hidx : i + 1 + k = i + (k + 1) := by omega
                rw [hidx] at h1 h2
                exact ⟨feat1, cands1, top1, h1, h2, h3, by simpa using h4⟩

theorem tagFacesAux_total {Feat Score : Type} [LinearOrder Score]
    (th : Score) (fts : List Feat) (nms : List (List (String × Score))) :
    ∀ (faces : List (Face Feat Score)) (i : Nat),
      (∀ k, k < faces.length → ∃ feat, fts[i + k]? = some feat) →
      (∀ k, k < faces.length → ∃ p rest, nms[i + k]? = some (p :: rest)) →
      ∃ out, tagFacesAux th fts nms i faces = some out := by
  intro faces
  induction faces with
  | nil => intro i _ _; exact ⟨[], rfl⟩
  | cons f fs ih =>
    intro i h1 h2
    obtain ⟨feat, hfeat⟩ := h1 0 (by simp)
    obtain ⟨p, rest, hcands⟩ := h2 0 (by simp)
    rw [Nat.add_zero] at hfeat hcands
    obtain ⟨out, hout⟩ := ih (i + 1)
      (fun k hk => by
        have hh := h1 (k + 1) (by simp only [List.length_cons]; omega)
        rwa [show i + (k + 1) = i + 1 + k by omega] at hh)
      (fun k hk => by
        have hh := h2 (k + 1) (by simp only [List.length_cons]; omega)
        rwa [show i + (k + 1) = i + 1 + k by omega] at hh)
    exact ⟨tagStep th feat p f :: out, by
      simp [tagFacesAux, hfeat, hcands, hout]⟩

theorem tagFacesAux_idem {Feat Score : Type} [LinearOrder Score]
    (th : Score) (fts : List Feat) (nms : List (List (String × Score))) :
    ∀ (faces : List (Face Feat Score)) (i : Nat) (out : List (Face Feat Score)),
      tagFacesAux th fts nms i faces = some out →
      tagFacesAux th fts nms i out = some out := by
  intro faces
  induction faces with
  | nil =>
    intro i out h
    simp only [tagFacesAux, Option.some.injEq] at h
    subst h
    rfl
  | cons f fs ih =>
    intro i out h
    simp only [tagFacesAux, List.get?_eq_getElem?, Option.bind_eq_bind] at h
    cases hfeat : fts[i]? with
    | none => simp [hfeat] at h
    | some feat =>
      cases hcands : nms[i]? with
      | none => simp [hfeat, hcands] at h
      | some cands =>
        cases htop : cands.head? with
        | none => simp [hfeat, hcands, htop] at h
        | some top =>
          cases hrest : tagFacesAux th fts nms (i + 1) fs with
          | none => simp [hfeat, hcands, htop, hrest] at h
          | some rest =>
            rw [hfeat] at h
            simp only [Option.some_bind] at h
            rw [hcands] at h
            simp only [Option.some_bind] at h
            rw [htop] at h
            simp only [Option.some_bind] at h
            rw [hrest] at h
            simp only [Option.some_bind, Option.some.injEq] at h
            subst h
            have hrec := ih (i + 1) rest hrest
            simp [tagFacesAux, hfeat, hcands, htop, hrec, tagStep_idem]

/-! ## Degenerate-similarity lemmas -/

theorem np_dot_left_zero (a : List ℝ) (h : ∀ x ∈ a, x = 0) :
    ∀ b : List ℝ, np_dot a b = 0 := by
  induction a with
  | nil => intro b; rfl
  | cons x xs ih =>
    intro b
    cases b with
    | nil => rfl
    | cons y ys =>
      have hx : x = 0 := h x (List.mem_cons_self x xs)
      have htail := ih (fun z hz => h z (List.mem_cons_of_mem x hz)) ys
      simp only [np_dot, List.zipWith_cons_cons, List.sum_cons] at htail ⊢
      rw [hx, zero_mul, zero_add, htail]

theorem np_dot_right_zero (b : List ℝ) (h : ∀ x ∈ b, x = 0) :
    ∀ a : List ℝ, np_dot a b = 0 := by
  induction b with
  | nil => intro a; cases a <;> rfl
  | cons y ys ih =>
    intro a
    cases a with
    | nil => rfl
    | cons x xs =>
      have hy : y = 0 := h y (List.mem_cons_self y ys)
      have htail := ih (fun z hz => h z (List.mem_cons_of_mem y hz)) xs
      simp only [np_dot, List.zipWith_cons_cons, List.sum_cons] at htail ⊢
      rw [hy, mul_zero, zero_add, htail]

theorem np_div_zero_all (v : List ℝ) : ∀ x ∈ np_div v 0, x = 0 := by
  intro x hx
  simp only [np_div, List.mem_map] at hx
  obtain ⟨y, _, hy⟩ := hx
  rw [← hy, div_zero]

theorem similarity_left_degenerate (feat d : List ℝ) (h : np_norm2 feat = 0) :
    similarity feat d = 0 := by
  unfold similarity
  apply np_dot_left_zero
  rw [← h]
  exact fun x hx => by
    rw [h] at hx ⊢
    exact np_div_zero_all feat x hx

theorem similarity_right_degenerate (feat d : List ℝ) (h : np_norm2 d = 0) :
    similarity feat d = 0 := by
  unfold similarity
  apply np_dot_right_zero
  rw [h]
  exact np_div_zero_all d

/-! ## Claim theorems -/

/-- C1 (counterexample to the claim as stated): the query embedding `[0, 0]`
has zero Euclidean norm, yet the database path of `detect` raises no error
and silently returns the candidate list `[("a", 0)]` — exactly the silent
zero score the claim rules out.  (Under IEEE arithmetic the same unguarded
division yields NaN; in the exact model division by zero gives 0.) -/
theorem C1_counterexample :
    np_norm2 [(0 : ℝ), 0] = 0 ∧
    detectDb [("a", [3, 4])] [[(0 : ℝ), 0]] = [[("a", (0 : ℝ))]] := by
  constructor
  · simp [np_norm2]
  · simp [detectDb, scoresFor, sortScores, similarity, np_div, np_dot,
      List.insertionSort, List.orderedInsert]

/-- C1 (amended): the database path of `detect` has no zero-norm guard.
Every query feature contributes a full candidate list; when the query
feature has zero norm every score in its list is the silent degenerate
value 0 (the unguarded division by the zero norm), and a zero-norm database
entry likewise silently yields similarity 0; no `DegenerateEmbeddingError`
(which does not exist in the code) is signalled. -/
theorem C1_no_guard (db : List (String × List ℝ)) (feats : List (List ℝ))
    (feat : List ℝ) (hmem : feat ∈ feats) :
    sortScores (scoresFor db feat) ∈ detectDb db feats ∧
    (np_norm2 feat = 0 → ∀ p ∈ sortScores (scoresFor db feat), p.2 = 0) ∧
    (∀ nm d, (nm, d) ∈ db → np_norm2 d = 0 → similarity feat d = 0) := by
  refine ⟨?_, ?_, ?_⟩
  · simp only [detectDb, List.mem_map]
    exact ⟨feat, hmem, rfl⟩
  · intro h0 p hp
    have hp1 : p ∈ scoresFor db feat := (sortScores_perm _).subset hp
    simp only [scoresFor, List.mem_map] at hp1
    obtain ⟨q, _, hq⟩ := hp1
    rw [← hq]
    exact similarity_left_degenerate feat q.2 h0
  · intro nm d _ h0
    exact similarity_right_degenerate feat d h0

/-- Witness for C1_no_guard at the zero query `[0]` against the database
`[("b", [1])]`. -/
theorem C1_no_guard_witness :
    sortScores (scoresFor [("b", [1])] [(0 : ℝ)]) ∈ detectDb [("b", [1])] [[(0 : ℝ)]] ∧
    ∀ p ∈ sortScores (scoresFor [("b", [1])] [(0 : ℝ)]), p.2 = 0 := by
  have h := C1_no_guard [("b", [1])] [[(0 : ℝ)]] [0] (by simp)
  exact ⟨h.1, h.2.1 (by simp [np_norm2])⟩

/-- C2: with a positive batch size and a non-empty roi list,
`extract_features` returns exactly one probability row and one feature row
per input roi, in the original input order — the padded batching followed
by stacking and truncation is invisible in the result. -/
theorem C2_batch_round_trip {Fc Region Prob Feat : Type}
    (get_roi : Fc → Region) (resize : Region → Region)
    (infer : Region → Prob × Feat) (batch_size : Nat) (fill : Region)
    (rois : List Region) (faces : Option (List Fc))
    (hB : 0 < batch_size) (hne : rois ≠ []) :
    extract_features get_roi resize infer batch_size fill (some rois) faces =
      some (rois.map (fun x => (infer (resize x)).1),
            rois.map (fun x => (infer (resize x)).2)) :=
  extract_features_maps get_roi resize infer batch_size fill rois faces hB hne

/-- Witness for C2_batch_round_trip: three rois with batch size two (not a
multiple), inference `r ↦ (r + 10, r * 2)`. -/
theorem C2_batch_round_trip_witness :
    0 < 2 ∧ ([1, 2, 3] : List Nat) ≠ [] ∧
    extract_features (fun x : Nat => x) (fun x : Nat => x)
        (fun r : Nat => (r + 10, r * 2)) 2 0 (some [1, 2, 3]) none =
      some ([11, 12, 13], [2, 4, 6]) := by
  refine ⟨by decide, by decide, ?_⟩
  rw [C2_batch_round_trip (fun x : Nat => x) (fun x : Nat => x)
    (fun r : Nat => (r + 10, r * 2)) 2 0 [1, 2, 3] none (by decide) (by decide)]
  decide

/-- C3: for every face at index `k` that `tag_faces` processes successfully,
the name and score fields are set to the top candidate's values when its
score reaches the threshold, and are left exactly as they were on the input
face when the top score is below the threshold. -/
theorem C3_threshold_gate {Feat Score : Type} [LinearOrder Score]
    (th : Score) (fts : List Feat) (nms : List (List (String × Score)))
    (faces out : List (Face Feat Score))
    (h : tag_faces th fts nms faces = some out)
    (k : Nat) (f : Face Feat Score) (hf : faces[k]? = some f)
    (n : String) (s : Score) (rest : List (String × Score))
    (hn : nms[k]? = some ((n, s) :: rest)) :
    ∃ g, out[k]? = some g ∧
      (th ≤ s → g.face_name = some n ∧ g.face_score = some s) ∧
      (s < th → g.face_name = f.face_name ∧ g.face_score = f.face_score) := by
  obtain ⟨_, hspec⟩ := tagFacesAux_spec th fts nms faces 0 out h
  obtain ⟨feat, cands, top, h1, h2, h3, h4⟩ := hspec k f hf
  rw [Nat.zero_add] at h1 h2
  rw [hn, Option.some.injEq] at h2
  subst h2
  simp only [List.head?_cons, Option.some.injEq] at h3
  subst h3
  refine ⟨tagStep th feat (n, s) f, h4, ?_, ?_⟩
  · intro hge
    rw [tagStep_above feat f (not_lt.mpr hge)]
    exact ⟨rfl, rfl⟩
  · intro hlt
    rw [tagStep_below feat f hlt]
    exact ⟨rfl, rfl⟩

/-- Witness for C3_threshold_gate: threshold 5, top candidate ("a", 7). -/
theorem C3_threshold_gate_witness :
    ∃ g, ([⟨some 1, some "a", some 7⟩] : List (Face Nat Nat))[0]? = some g ∧
      ((5 : Nat) ≤ 7 → g.face_name = some "a" ∧ g.face_score = some 7) ∧
      ((7 : Nat) < 5 → g.face_name = none ∧ g.face_score = none) :=
  C3_threshold_gate 5 [1] [[("a", 7)]] [⟨none, none, none⟩]
    [⟨some 1, some "a", some 7⟩] (by decide) 0 ⟨none, none, none⟩ (by decide)
    "a" 7 [] (by decide)

/-- C4: every candidate list produced on either path of `detect` has
non-increasing scores, and on the database path each candidate list is the
stable descending sort of the database scores: entries of equal score keep
the original database iteration order (their filtered subsequence is
unchanged by the sort). -/
theorem C4_candidate_ordering (db : Option (List (String × List ℝ)))
    (cn : List String) (topk : Nat) (probs : List (List ℝ))
    (feats : List (List ℝ)) :
    (∀ l ∈ detectNames db cn topk probs feats,
       l.Pairwise (fun a b => b.2 ≤ a.2)) ∧
    (∀ d, db = some d → ∀ feat ∈ feats,
       sortScores (scoresFor d feat) ∈ detectNames db cn topk probs feats ∧
       ∀ s : ℝ, (sortScores (scoresFor d feat)).filter (fun p => p.2 = s) =
         (scoresFor d feat).filter (fun p => p.2 = s)) := by
  constructor
  · intro l hl
    cases db with
    | none =>
      simp only [detectNames, detectNoDb, List.mem_map] at hl
      obtain ⟨prop, _, heq⟩ := hl
      rw [← heq]
      exact fallbackList_sorted cn topk prop
    | some d =>
      simp only [detectNames, detectDb, List.mem_map] at hl
      obtain ⟨feat, _, heq⟩ := hl
      rw [← heq]
      exact sortScores_sorted _
  · intro d hdb feat hfeat
    subst hdb
    constructor
    · simp only [detectNames, detectDb, List.mem_map]
      exact ⟨feat, hfeat, rfl⟩
    · intro s
      exact sortScores_stable _ s

/-- Witness for C4_candidate_ordering on the database path with an empty
database and one query. -/
theorem C4_candidate_ordering_witness :
    (([] : List (String × ℝ)).Pairwise (fun a b => b.2 ≤ a.2)) ∧
    (sortScores (scoresFor [] [(1 : ℝ)])).filter (fun p => p.2 = (0 : ℝ)) =
      (scoresFor [] [(1 : ℝ)]).filter (fun p => p.2 = (0 : ℝ)) := by
  have h := C4_candidate_ordering (some []) [] 0 [] [[(1 : ℝ)]]
  refine ⟨?_, ((h.2 [] rfl [1] (by simp)).2) 0⟩
  exact h.1 [] (by simp [detectNames, detectDb, scoresFor, sortScores,
    List.insertionSort])

/-- C5 (counterexample to the claim as stated): a face whose candidate list
is empty (as produced by an empty database) makes `tag_faces` raise an
IndexError (`result['name'][face_idx][0]`), modelled as `none`, instead of
leaving the fields unset. -/
theorem C5_counterexample :
    tag_faces (5 : Nat) [(1 : Nat)] [([] : List (String × Nat))]
      [(⟨none, none, none⟩ : Face Nat Nat)] = none := by
  rfl

/-- C5 (amended): `tag_faces` raises no exception merely because a face's
top score is below the threshold — absence of an identity is represented by
the name/score fields staying unset (see C3) — but it does require every
face to have a non-empty candidate list and a feature: under those
conditions it returns normally, one output face per input face. -/
theorem C5_no_error_for_unmatched {Feat Score : Type} [LinearOrder Score]
    (th : Score) (fts : List Feat) (nms : List (List (String × Score)))
    (faces : List (Face Feat Score))
    (h1 : ∀ k, k < faces.length → ∃ feat, fts[k]? = some feat)
    (h2 : ∀ k, k < faces.length → ∃ p rest, nms[k]? = some (p :: rest)) :
    ∃ out, tag_faces th fts nms faces = some out ∧
      out.length = faces.length := by
  obtain ⟨out, hout⟩ := tagFacesAux_total th fts nms faces 0
    (fun k hk => by simpa using h1 k hk)
    (fun k hk => by simpa using h2 k hk)
  exact ⟨out, hout, (tagFacesAux_spec th fts nms faces 0 out hout).1⟩

/-- Witness for C5_no_error_for_unmatched: a single face whose top score 3
is below the threshold 5 still tags without error. -/
theorem C5_no_error_for_unmatched_witness :
    ∃ out, tag_faces (5 : Nat) [(1 : Nat)] [[("a", (3 : Nat))]]
      [(⟨none, none, none⟩ : Face Nat Nat)] = some out ∧ out.length = 1 :=
  C5_no_error_for_unmatched 5 [1] [[("a", 3)]] [⟨none, none, none⟩]
    (fun k hk => by
      have hk0 : k = 0 := by simpa using hk
      subst hk0
      exact ⟨1, rfl⟩)
    (fun k hk => by
      have hk0 : k = 0 := by simpa using hk
      subst hk0
      exact ⟨("a", 3), [], rfl⟩)

/-- C6: with no database loaded and a positive configured `topk`, every
query's candidate list has exactly `min topk numClasses` entries, sorted
descending by probability; when `topk` is at least the class count the
candidate names are a permutation of all class names. -/
theorem C6_fallback_topk {α : Type} [LinearOrder α] [Inhabited α]
    (cn : List String) (topk : Nat) (probs : List (List α))
    (htop : 0 < topk) (hw : ∀ prop ∈ probs, prop.length = cn.length) :
    ∀ l ∈ detectNoDb cn topk probs,
      l.length = min topk cn.length ∧
      l.Pairwise (fun a b => b.2 ≤ a.2) ∧
      (cn.length ≤ topk → List.Perm (l.map Prod.fst) cn) := by
  intro l hl
  simp only [detectNoDb, List.mem_map] at hl
  obtain ⟨prop, hp, heq⟩ := hl
  rw [← heq]
  have hlen := hw prop hp
  refine ⟨?_, fallbackList_sorted cn topk prop, ?_⟩
  · rw [fallbackList_length cn prop htop, hlen]
  · intro hle
    exact fallbackList_names_perm hlen.symm (by rw [hlen]; exact hle)

/-- Witness for C6_fallback_topk: two classes, `topk = 3` exceeding the
class count, one query. -/
theorem C6_fallback_topk_witness :
    (fallbackList ["a", "b"] 3 [(5 : Nat), 7]).length = min 3 2 ∧
    (fallbackList ["a", "b"] 3 [(5 : Nat), 7]).Pairwise (fun a b => b.2 ≤ a.2) ∧
    (["a", "b"].length ≤ 3 →
      List.Perm ((fallbackList ["a", "b"] 3 [(5 : Nat), 7]).map Prod.fst)
        ["a", "b"]) := by
  have h := C6_fallback_topk ["a", "b"] 3 [[(5 : Nat), 7]] (by decide)
    (by decide) (fallbackList ["a", "b"] 3 [5, 7]) (by simp [detectNoDb])
  simpa using h

/-- C7: on the database path `detect` ignores the `topk` configuration
entirely (the result is the same for any `topk`, class names and
probabilities), and each query's candidate list is a permutation of the
per-entry score list — one `(name, similarity)` pair per database entry, so
its length equals the database size. -/
theorem C7_db_full_list (d : List (String × List ℝ)) (cn cn2 : List String)
    (topk topk2 : Nat) (probs probs2 : List (List ℝ)) (feats : List (List ℝ)) :
    detectNames (some d) cn topk probs feats =
      detectNames (some d) cn2 topk2 probs2 feats ∧
    ∀ (i : Nat) (feat : List ℝ), feats[i]? = some feat →
      ∃ l, (detectNames (some d) cn topk probs feats)[i]? = some l ∧
        l.length = d.length ∧ List.Perm l (scoresFor d feat) := by
  constructor
  · rfl
  · intro i feat hf
    refine ⟨sortScores (scoresFor d feat), ?_, ?_, sortScores_perm _⟩
    · simp only [detectNames, detectDb, List.getElem?_map, hf, Option.map_some']
    · rw [(sortScores_perm _).length_eq]
      simp [scoresFor]

/-- Witness for C7_db_full_list: one database entry, one query. -/
theorem C7_db_full_list_witness :
    detectNames (some [("a", [1])]) [] 0 [] [[(2 : ℝ)]] =
      detectNames (some [("a", [1])]) ["x"] 5 [[3]] [[(2 : ℝ)]] ∧
    ∃ l, (detectNames (some [("a", [1])]) [] 0 [] [[(2 : ℝ)]])[0]? = some l ∧
      l.length = 1 ∧ List.Perm l (scoresFor [("a", [1])] [2]) := by
  have h := C7_db_full_list [("a", [1])] [] ["x"] 0 5 [] [[3]] [[(2 : ℝ)]]
  exact ⟨h.1, h.2 0 [2] (by simp)⟩

/-- C8: for every face at index `k` processed successfully by `tag_faces`,
the output face's feature field is set to `result['feature'][k]`
unconditionally — the threshold plays no role in this assignment. -/
theorem C8_feature_unconditional {Feat Score : Type} [LinearOrder Score]
    (th : Score) (fts : List Feat) (nms : List (List (String × Score)))
    (faces out : List (Face Feat Score))
    (h : tag_faces th fts nms faces = some out)
    (k : Nat) (f : Face Feat Score) (hf : faces[k]? = some f) :
    ∃ feat g, fts[k]? = some feat ∧ out[k]? = some g ∧
      g.face_feature = some feat := by
  obtain ⟨_, hspec⟩ := tagFacesAux_spec th fts nms faces 0 out h
  obtain ⟨feat, cands, top, h1, _, _, h4⟩ := hspec k f hf
  rw [Nat.zero_add] at h1
  exact ⟨feat, tagStep th feat top f, h1, h4, tagStep_feature th feat top f⟩

/-- Witness for C8_feature_unconditional: the top score 3 is below the
threshold 5, yet the feature is attached. -/
theorem C8_feature_unconditional_witness :
    ∃ feat g, ([(1 : Nat)])[0]? = some feat ∧
      ([⟨some 1, none, none⟩] : List (Face Nat Nat))[0]? = some g ∧
      g.face_feature = some feat :=
  C8_feature_unconditional 5 [1] [[("a", 3)]] [⟨none, none, none⟩]
    [⟨some 1, none, none⟩] (by decide) 0 ⟨none, none, none⟩ (by decide)

/-- C9: `tag_faces` is idempotent — re-running it on its own output with the
same feature list, candidate lists and threshold reproduces that output
exactly (no accumulation). -/
theorem C9_idempotent {Feat Score : Type} [LinearOrder Score]
    (th : Score) (fts : List Feat) (nms : List (List (String × Score)))
    (faces out : List (Face Feat Score))
    (h : tag_faces th fts nms faces = some out) :
    tag_faces th fts nms out = some out :=
  tagFacesAux_idem th fts nms faces 0 out h

/-- Witness for C9_idempotent: re-tagging the tagged face list is a fixed
point. -/
theorem C9_idempotent_witness :
    tag_faces (5 : Nat) [(1 : Nat)] [[("a", (7 : Nat))]]
      [(⟨some 1, some "a", some 7⟩ : Face Nat Nat)] =
      some [⟨some 1, some "a", some 7⟩] :=
  C9_idempotent 5 [1] [[("a", 7)]] [⟨none, none, none⟩]
    [⟨some 1, some "a", some 7⟩] (by decide)

/-- C10: when both the `rois` and the `faces` arguments are falsy (absent or
empty), `extract_features` raises (the local `new_rois` is never assigned
before use) instead of returning two empty result sequences. -/
theorem C10_requires_nonempty {Fc Region Prob Feat : Type}
    (get_roi : Fc → Region) (resize : Region → Region)
    (infer : Region → Prob × Feat) (batch_size : Nat) (fill : Region)
    (rois : Option (List Region)) (faces : Option (List Fc))
    (h1 : truthy rois = false) (h2 : truthy faces = false) :
    extract_features get_roi resize infer batch_size fill rois faces = none :=
  extract_features_falsy get_roi resize infer batch_size fill rois faces h1 h2

/-- Witness for C10_requires_nonempty: absent rois and an empty faces list. -/
theorem C10_requires_nonempty_witness :
    truthy (none : Option (List Nat)) = false ∧
    truthy (some ([] : List Nat)) = false ∧
    extract_features (fun x : Nat => x) (fun x : Nat => x)
      (fun r : Nat => (r, r)) 4 0 (none : Option (List Nat))
      (some ([] : List Nat)) = none :=
  ⟨rfl, by decide,
    C10_requires_nonempty (fun x : Nat => x) (fun x : Nat => x)
      (fun r : Nat => (r, r)) 4 0 none (some []) rfl (by decide)⟩

end DeepFaceVGG
